import Mathlib

/-!
# Verification of the tinyAGI harness core

A shallow embedding of the parts of the tinyAGI repository that the verified
claims are about, together with theorems settling those claims.

Conventions of the embedding:
* JavaScript strings are modelled as `List Char` (abbreviated `Str`); the
  JS regular expressions used by the source are modelled as executable
  scanners over `List Char` that follow the leftmost-match / greedy /
  backtracking semantics of the concrete patterns in the source, restricted
  to the ASCII range in which the harness operates.
* `Date.now()` timestamps are passed explicitly as `Int` parameters.
* The SQLite tables behind the repository are modelled as in-memory lists of
  typed rows; an `UPDATE`/`UPSERT` statement becomes a pure list transform.
* External effects (spawning a subprocess, the LLM one-shot prompt call,
  `JSON.parse` of the crypto library's UUID/SHA1 primitives) are oracles:
  they enter the model as explicit parameters, and the functions under
  verification record how the oracles were consulted (for example which
  argv would be spawned).
-/

set_option maxHeartbeats 1600000
set_option maxRecDepth 4096

namespace TinyAGI

/-- JavaScript strings are modelled as lists of characters. -/
abbrev Str := List Char

/-- The ASCII part of the JS `\s` character class. -/
def isJsWs (c : Char) : Bool :=
  c = ' ' || c = '\t' || c = '\n' || c = '\r' || c = Char.ofNat 11 || c = Char.ofNat 12

/-- The JS `\w` word-character class `[A-Za-z0-9_]`, used by `\b` boundaries. -/
def isWordChar (c : Char) : Bool :=
  ('a' ≤ c && c ≤ 'z') || ('A' ≤ c && c ≤ 'Z') || ('0' ≤ c && c ≤ '9') || c = '_'

/-- JS `String.prototype.toLowerCase`, restricted to ASCII. -/
def lowerStr (s : Str) : Str := s.map Char.toLower

/-- JS `String.prototype.trim`. -/
def jsTrim (s : Str) : Str :=
  ((s.dropWhile isJsWs).reverse.dropWhile isJsWs).reverse

/-- Case-insensitive prefix test: does `l` start with the (lowercase) word `w`? -/
def startsWithCI (w : Str) (l : Str) : Bool :=
  lowerStr (l.take w.length) = w && w.length ≤ l.length

/-- Boundary condition of `\b` against the character preceding a match
(`none` means start of string). -/
def boundaryBefore (prev : Option Char) : Bool :=
  match prev with
  | none => true
  | some c => !(isWordChar c)

/-- Boundary condition of `\b` against the rest of the input after a match
ending in a word character. -/
def boundaryAfter (rest : Str) : Bool :=
  match rest with
  | [] => true
  | c :: _ => !(isWordChar c)

/-! ## Loop engine (`src/harness/runtime/loop-engine.ts`) -/

/-- `VerifierOutcome` from `src/harness/types.ts`. -/
inductive VerifierOutcome
  | pass
  | minor_fix
  | critical_fail
  | abstain
deriving DecidableEq, Repr

/-- `RiskLevel` from `src/harness/types.ts`. -/
inductive RiskLevel
  | low
  | medium
  | high
  | critical
deriving DecidableEq, Repr

/-- `VerificationVerdict` from `src/harness/types.ts` as returned by the
verifier. -/
structure VerificationVerdict where
  runId : Str
  verifier : Str
  outcome : VerifierOutcome
  findings : List Str
  requiredActions : List Str
  evidenceRefs : List Str
deriving DecidableEq, Repr

/-- `budgetForRisk` from `loop-engine.ts`: 5 for critical/high, 3 for medium,
1 otherwise. -/
def budgetForRisk (risk : RiskLevel) : Nat :=
  if risk = .critical || risk = .high then 5
  else if risk = .medium then 3
  else 1

/-- `isResolvable` from `loop-engine.ts`. -/
def isResolvable (o : VerifierOutcome) : Bool :=
  o = .minor_fix || o = .critical_fail

/-- `LoopResult` from `loop-engine.ts`. -/
structure LoopResult where
  output : Str
  verdict : VerificationVerdict
  loopsUsed : Nat
  exhausted : Bool
deriving DecidableEq, Repr

/-- The `for (let iteration = 1; iteration <= maxLoops; ...)` loop of
`runGeneratorVerifierRevisorLoop`.  The fuel argument equals
`maxLoops - iteration + 1`, so fuel `0` is the (source-unreachable) fall
through after the loop, which returns `loopsUsed = maxLoops, exhausted`. -/
def loopFrom (verify : Str → Nat → VerificationVerdict)
    (revise : Str → VerificationVerdict → Nat → Str)
    (maxLoops : Nat) :
    Nat → Nat → Str → VerificationVerdict → LoopResult
  | 0, _, gen, vd => ⟨gen, vd, maxLoops, true⟩
  | fuel + 1, iteration, gen, vd =>
    if vd.outcome = .pass || vd.outcome = .abstain then
      ⟨gen, vd, iteration, false⟩
    else if !(isResolvable vd.outcome) || maxLoops ≤ iteration then
      ⟨gen, vd, iteration, true⟩
    else
      let revised := revise gen vd (iteration + 1)
      let vd2 := verify revised (iteration + 1)
      loopFrom verify revise maxLoops fuel (iteration + 1) revised vd2

/-- `runGeneratorVerifierRevisorLoop` from `loop-engine.ts`.  The `generate`
callback is consulted exactly once in the source, so its result is the
`generate` argument; `verify` and `revise` are the other two callbacks
(pure functions of the candidate and the iteration number, as in the
source). -/
def runGeneratorVerifierRevisorLoop (risk : RiskLevel)
    (generate : Str)
    (verify : Str → Nat → VerificationVerdict)
    (revise : Str → VerificationVerdict → Nat → Str) : LoopResult :=
  let maxLoops := budgetForRisk risk
  let vd := verify generate 1
  loopFrom verify revise maxLoops maxLoops 1 generate vd

theorem loopFrom_loopsUsed_le (verify : Str → Nat → VerificationVerdict)
    (revise : Str → VerificationVerdict → Nat → Str) (maxLoops : Nat) :
    ∀ (fuel iteration : Nat) (gen : Str) (vd : VerificationVerdict),
      iteration ≤ maxLoops →
      (loopFrom verify revise maxLoops fuel iteration gen vd).loopsUsed ≤ maxLoops := by
  intro fuel
  induction fuel with
  | zero =>
    intro iteration gen vd _
    simp [loopFrom]
  | succ n ih =>
    intro iteration gen vd hle
    unfold loopFrom
    split
    · exact hle
    · split
      · exact hle
      · rename_i h1 h2
        have hlt : iteration < maxLoops := by
          rcases Nat.lt_or_ge iteration maxLoops with h | h
          · exact h
          · exfalso
            apply h2
            simp [Nat.le_of_lt_succ]
            omega
        exact ih _ _ _ hlt

/-- C2: the generator–verifier–reviser loop uses budget 1 for low risk,
3 for medium, 5 for high or critical, and `loopsUsed` of the returned
`LoopResult` never exceeds that budget. -/
theorem loop_budget_bound (risk : RiskLevel) (generate : Str)
    (verify : Str → Nat → VerificationVerdict)
    (revise : Str → VerificationVerdict → Nat → Str) :
    (runGeneratorVerifierRevisorLoop risk generate verify revise).loopsUsed
        ≤ budgetForRisk risk
      ∧ budgetForRisk .low = 1 ∧ budgetForRisk .medium = 3
      ∧ budgetForRisk .high = 5 ∧ budgetForRisk .critical = 5 := by
  refine ⟨?_, rfl, rfl, rfl, rfl⟩
  have hb : 1 ≤ budgetForRisk risk := by
    cases risk <;> simp [budgetForRisk]
  exact loopFrom_loopsUsed_le verify revise (budgetForRisk risk)
    (budgetForRisk risk) 1 generate (verify generate 1) hb

/-! ## Shared string scanners for the JS regexes of the tooling executor -/

theorem length_dropWhile_le (p : Char → Bool) (l : Str) :
    (l.dropWhile p).length ≤ l.length :=
  (List.dropWhile_suffix p).sublist.length_le

/-- Does `hay` contain `needle` as a contiguous substring?  Models the JS
`RegExp.test` of a plain literal pattern. -/
def containsSub (needle : Str) : Str → Bool
  | [] => needle.isEmpty
  | l@(_ :: rest) => needle.isPrefixOf l || containsSub needle rest

/-- One match position of `\b<w>\b` (case-insensitive, `w` given lowercase):
`prev` is the character before the current position. -/
def hasWordCIAux (w : Str) : Option Char → Str → Bool
  | _, [] => false
  | prev, l@(c :: rest) =>
    (boundaryBefore prev && startsWithCI w l && boundaryAfter (l.drop w.length))
      || hasWordCIAux w (some c) rest

/-- JS `/\b<w>\b/i.test(s)` for a literal word `w` (given lowercase). -/
def hasWordCI (w s : Str) : Bool := hasWordCIAux w none s

/-- Match of `rm\s+-rf\b` (case-insensitive) at the start of `l`:
`-` is not whitespace, so the greedy `\s+` run must stop exactly at it. -/
def rmRfAt (l : Str) : Bool :=
  startsWithCI "rm".data l &&
    (let after := l.drop 2
     let ws := after.takeWhile isJsWs
     let tail := after.dropWhile isJsWs
     !ws.isEmpty && startsWithCI "-rf".data tail && boundaryAfter (tail.drop 3))

def hasRmRfAux : Option Char → Str → Bool
  | _, [] => false
  | prev, l@(c :: rest) => (boundaryBefore prev && rmRfAt l) || hasRmRfAux (some c) rest

/-- JS `/\brm\s+-rf\b/i.test(s)` from `sanitizeCommand`. -/
def hasRmRf (s : Str) : Bool := hasRmRfAux none s

/-- JS `/\bsudo\b/i.test(s)` from `sanitizeCommand`. -/
def hasSudoWord (s : Str) : Bool := hasWordCI "sudo".data s

/-- The character class `[;&|`]` of `sanitizeCommand` (96 is the backquote). -/
def isShellMetaChar (c : Char) : Bool :=
  c = ';' || c = '&' || c = '|' || c = Char.ofNat 96

/-- JS `/[;&|`]/.test(s)` from `sanitizeCommand`. -/
def hasShellMeta (s : Str) : Bool := s.any isShellMetaChar

/-! ## Tooling executor (`src/harness/tools/executor.ts`) -/

/-- `ALLOWED_TOOLS` from `executor.ts`. -/
def ALLOWED_TOOLS : List Str :=
  ["npm".data, "npx".data, "pip".data, "pip3".data, "brew".data,
   "git".data, "docker".data, "pnpm".data, "yarn".data]

/-- `tokenizeCommand` from `executor.ts`: the global-exec loop of
`/"([^"]*)"|'([^']*)'|(\S+)/g` followed by `filter(Boolean)`.  At each
non-whitespace position the quoted alternatives are preferred exactly when a
closing quote exists later (otherwise `[^"]*"` cannot match and `\S+` takes
over); 39 is the single-quote character. -/
def tokenizeAux : Nat → Str → List Str
  | _, [] => []
  | 0, _ => []
  | fuel + 1, c :: rest =>
    if isJsWs c then tokenizeAux fuel rest
    else if c = '"' && rest.contains '"' then
      (rest.takeWhile (fun x => !(x = '"'))) ::
        tokenizeAux fuel ((rest.dropWhile (fun x => !(x = '"'))).drop 1)
    else if c = Char.ofNat 39 && rest.contains (Char.ofNat 39) then
      (rest.takeWhile (fun x => !(x = Char.ofNat 39))) ::
        tokenizeAux fuel ((rest.dropWhile (fun x => !(x = Char.ofNat 39))).drop 1)
    else
      (c :: rest.takeWhile (fun x => !(isJsWs x))) ::
        tokenizeAux fuel (rest.dropWhile (fun x => !(isJsWs x)))

/-- Each scanner step consumes at least one character, so fuel equal to the
input length always suffices and the `0` fuel case is unreachable. -/
def tokenizeCommand (command : Str) : List Str :=
  (tokenizeAux command.length command).filter (fun t => !t.isEmpty)

/-- `sanitizeCommand` from `executor.ts`. -/
inductive SanitizeResult
  | ok
  | err (reason : Str)
deriving DecidableEq, Repr

def sanitizeCommand (command : Str) : SanitizeResult :=
  if (jsTrim command).isEmpty then
    .err "No executable tool command found.".data
  else if hasShellMeta command then
    .err "Command chaining/pipes are blocked in harness tooling mode.".data
  else if hasSudoWord command then
    .err "sudo is blocked in harness tooling mode.".data
  else if hasRmRf command then
    .err "Destructive rm -rf command blocked.".data
  else
    let tokens := tokenizeCommand command
    if tokens.isEmpty then
      .err "Command parser could not extract executable tokens.".data
    else
      let tool := lowerStr (tokens.headD [])
      if !(ALLOWED_TOOLS.contains tool) then
        .err ("Tool '".data ++ tool ++ "' is not in allowed harness tool list.".data)
      else .ok

/-- `stripLinePrefix` from `executor.ts`, first replace: `^[-*]\s+` → `''`. -/
def stripListMarker (l : Str) : Str :=
  match l with
  | [] => []
  | c :: rest =>
    if (c = '-' || c = '*') && (match rest with | r :: _ => isJsWs r | [] => false) then
      rest.dropWhile isJsWs
    else c :: rest

/-- `stripLinePrefix`, second replace: `^\d+[.)]\s+` → `''` (digits are not
`.`/`)`, so only the maximal digit run can match). -/
def stripNumberMarker (l : Str) : Str :=
  let digits := l.takeWhile (fun c => '0' ≤ c && c ≤ '9')
  let rest := l.dropWhile (fun c => '0' ≤ c && c ≤ '9')
  if digits.isEmpty then l
  else
    match rest with
    | [] => l
    | c :: r2 =>
      if (c = '.' || c = ')') && (match r2 with | x :: _ => isJsWs x | [] => false) then
        r2.dropWhile isJsWs
      else l

def stripLinePrefix (l : Str) : Str :=
  jsTrim (stripNumberMarker (stripListMarker l))

/-- The first loop of `extractCommandCandidate`: a line whose lowercase form
starts with `"<tool> "` or equals a tool name. -/
def lineMatchesTool (line tool : Str) : Bool :=
  (tool ++ [' ']).isPrefixOf (lowerStr line) || lowerStr line = tool

def findLineCommand : List Str → Option Str
  | [] => none
  | line :: rest =>
    if ALLOWED_TOOLS.any (fun tool => lineMatchesTool line tool) then some line
    else findLineCommand rest

/-- Greedy match of `\s*[^\n]+` at the start of the input (the continuation
of the fallback regex of `extractCommandCandidate` after its mandatory first
whitespace character); backtracking returns trailing whitespace characters to
`[^\n]+` when it would otherwise be empty. -/
def wsStarRest : Str → Option Str
  | [] => none
  | c :: rest =>
    if isJsWs c then
      match wsStarRest rest with
      | some m => some (c :: m)
      | none =>
        if c = '\n' then none
        else some (c :: rest.takeWhile (fun x => !(x = '\n')))
    else
      if c = '\n' then none
      else some (c :: rest.takeWhile (fun x => !(x = '\n')))

/-- Greedy match of `\s+[^\n]+` at the start of the input. -/
def wsThenLine : Str → Option Str
  | [] => none
  | c :: rest =>
    if isJsWs c then (wsStarRest rest).map (fun m => c :: m)
    else none

/-- First match of the fallback regex `\b(<tool>)\s+[^\n]+` (case-insensitive)
of `extractCommandCandidate`. -/
def findToolMatchAux (tool : Str) : Option Char → Str → Option Str
  | _, [] => none
  | prev, l@(c :: rest) =>
    if boundaryBefore prev && startsWithCI tool l then
      match wsThenLine (l.drop tool.length) with
      | some m => some (l.take tool.length ++ m)
      | none => findToolMatchAux tool (some c) rest
    else findToolMatchAux tool (some c) rest

def findToolFallback : List Str → Str → Option Str
  | [], _ => none
  | tool :: rest, blob =>
    match findToolMatchAux tool none blob with
    | some m => some m
    | none => findToolFallback rest blob

/-- `extractCommandCandidate` from `executor.ts`. -/
def extractCommandCandidate (blob : Str) : Str :=
  let lines := ((blob.splitOn '\n').map stripLinePrefix).filter (fun l => !l.isEmpty)
  match findLineCommand lines with
  | some line => line
  | none =>
    match findToolFallback ALLOWED_TOOLS blob with
    | some m => jsTrim m
    | none => []

/-! ## Repository rows used by the tooling executor
(`src/harness/repository.ts`) -/

inductive PermStatus
  | active
  | revoked
  | pending
deriving DecidableEq, Repr

/-- A row of the `permissions` table. -/
structure PermissionRow where
  permission_id : Str
  user_id : Str
  subject : Str
  action : Str
  resource : Str
  status : PermStatus
  created_at : Int
  updated_at : Int
deriving DecidableEq, Repr

/-- `upsertPermission` from `repository.ts`: conflict key `permission_id`,
update columns `status`, `resource`, `updated_at`. -/
def upsertPermission (permissionId userId subject action resource : Str)
    (status : PermStatus) (now : Int)
    (perms : List PermissionRow) : List PermissionRow :=
  if perms.any (fun p => p.permission_id = permissionId) then
    perms.map (fun p =>
      if p.permission_id = permissionId then
        { p with status := status, resource := resource, updated_at := now }
      else p)
  else
    perms ++ [{ permission_id := permissionId, user_id := userId,
                subject := subject, action := action, resource := resource,
                status := status, created_at := now, updated_at := now }]

/-- `hasActivePermission` from `repository.ts` (`COUNT(*) > 0`). -/
def hasActivePermission (userId subject action : Str)
    (perms : List PermissionRow) : Bool :=
  perms.any (fun p =>
    p.user_id = userId && p.subject = subject && p.action = action
      && p.status = .active)

inductive TrustClass
  | curated
  | mainstream
  | unknown
deriving DecidableEq, Repr

inductive ToolStatus
  | approved
  | blocked
  | pending
deriving DecidableEq, Repr

/-- A row of the `tool_registry` table; the JSON metadata blob is kept as the
key/value pairs it serializes. -/
structure ToolRow where
  tool_id : Str
  name : Str
  source : Str
  trust_class : TrustClass
  status : ToolStatus
  last_verified_at : Int
  metadata : List (Str × Str)
  created_at : Int
  updated_at : Int
deriving DecidableEq, Repr

/-- `upsertTool` from `repository.ts`: conflict key `tool_id`, update
columns everything except `created_at`. -/
def upsertTool (toolId name source : Str) (trustClass : TrustClass)
    (status : ToolStatus) (metadata : List (Str × Str)) (now : Int)
    (tools : List ToolRow) : List ToolRow :=
  if tools.any (fun t => t.tool_id = toolId) then
    tools.map (fun t =>
      if t.tool_id = toolId then
        { t with name := name, source := source, trust_class := trustClass,
                 status := status, last_verified_at := now,
                 metadata := metadata, updated_at := now }
      else t)
  else
    tools ++ [{ tool_id := toolId, name := name, source := source,
                trust_class := trustClass, status := status,
                last_verified_at := now, metadata := metadata,
                created_at := now, updated_at := now }]

/-- `getToolByName` from `repository.ts` (`lower(name) = lower(?)`). -/
def getToolByName (name : Str) (tools : List ToolRow) : Option ToolRow :=
  tools.find? (fun t => lowerStr t.name = lowerStr name)

/-- A row of the `tool_events` table. -/
structure ToolEventRow where
  tool_id : Str
  event_type : Str
  payload : List (Str × Str)
  created_at : Int
deriving DecidableEq, Repr

/-- A row of the `harness_metric_events` table. -/
structure MetricEventRow where
  metric_name : Str
  delta : Int
  metadata : List (Str × Str)
  created_at : Int
deriving DecidableEq, Repr

/-- The `harness_metrics` table plus its append-only event log. -/
structure MetricsStore where
  values : List (Str × Int)
  events : List MetricEventRow
deriving DecidableEq, Repr

/-- `incrementMetric` from `repository.ts`: read current value (0 when
absent), upsert `current + delta`, append an event row, return the new
value. -/
def incrementMetric (name : Str) (delta : Int) (metadata : List (Str × Str))
    (now : Int) (st : MetricsStore) : Int × MetricsStore :=
  let current := ((st.values.find? (fun v => v.1 = name)).map Prod.snd).getD 0
  let nextValue := current + delta
  let values :=
    if st.values.any (fun v => v.1 = name) then
      st.values.map (fun v => if v.1 = name then (v.1, nextValue) else v)
    else st.values ++ [(name, nextValue)]
  (nextValue, { values := values,
                events := st.events ++ [⟨name, delta, metadata, now⟩] })

/-! ## `executeToolingTask` (`src/harness/tools/executor.ts`) -/

/-- `classifyTrust` from `executor.ts` (the `tools/executor` variant). -/
def classifyTrust (source : Str) : TrustClass :=
  let normalized := lowerStr source
  if ["github".data, "npm".data, "pypi".data, "homebrew".data, "docker".data,
      "git".data].any (fun w => containsSub w normalized) then
    .mainstream
  else if ["internal".data, "local".data, "curated".data].any
      (fun w => containsSub w normalized) then
    .curated
  else .unknown

def isLowerAlnum (c : Char) : Bool := ('a' ≤ c && c ≤ 'z') || ('0' ≤ c && c ≤ '9')

/-- The replace `/[^a-z0-9]+/g → '_'` of `toolIdFromName`: each maximal run
of non-alphanumerics becomes one underscore. -/
def slugify : Str → Str
  | [] => []
  | c :: rest =>
    if isLowerAlnum c then c :: slugify rest
    else '_' :: slugify (rest.dropWhile (fun x => !(isLowerAlnum x)))
termination_by l => l.length
decreasing_by
  all_goals simp_wf
  all_goals
    first
      | omega
      | exact Nat.lt_succ_of_le (length_dropWhile_le _ _)

/-- `toolIdFromName` from `executor.ts`. -/
def toolIdFromName (name : Str) : Str :=
  "tool_".data ++ slugify (lowerStr name)

/-- `ToolExecutionInput` from `executor.ts` (an empty `candidateOutput`
models the absent optional field). -/
structure ToolExecutionInput where
  runId : Str
  userId : Str
  objective : Str
  candidateOutput : Str
  workspacePath : Str
deriving DecidableEq, Repr

/-- `ToolExecutionResult` from `executor.ts`, with the optional fields each
status actually carries. -/
inductive ToolingResult
  | completed (toolName command outputSnippet message : Str)
  | needs_approval (requestId toolName command message : Str)
  | needs_input (message : Str)
  | failed (toolName command outputSnippet message : Str)
deriving DecidableEq, Repr

/-- The repository state touched by the tooling executor. -/
structure ToolingState where
  permissions : List PermissionRow
  tools : List ToolRow
  toolEvents : List ToolEventRow
  metrics : MetricsStore
deriving DecidableEq, Repr

/-- `[input.objective, input.candidateOutput || ''].filter(Boolean).join('\n')`. -/
def sourceText (objective candidateOutput : Str) : Str :=
  List.intercalate ['\n'] (([objective, candidateOutput]).filter (fun s => !s.isEmpty))

/-- The approval instruction string of the `needs_approval` branch. -/
def approvalMessage (toolName requestId : Str) : Str :=
  "Tool execution requires approval for '".data ++ toolName
    ++ "'. Reply with /approve ".data ++ requestId
    ++ " or /deny ".data ++ requestId ++ ".".data

/-- The command candidate `executeToolingTask` extracts from its input. -/
def extractedToolCommand (input : ToolExecutionInput) : Str :=
  extractCommandCandidate (sourceText input.objective input.candidateOutput)

/-- The lowercased first token of the extracted command (`tokens[0]` of
`executeToolingTask`). -/
def toolNameOf (input : ToolExecutionInput) : Str :=
  lowerStr ((tokenizeCommand (extractedToolCommand input)).headD [])

/-- `executeToolingTask` from `executor.ts`.

The subprocess spawn of `executeCommand` is external: the `ex` oracle is the
`(exit code, formatted output)` pair it would produce, and the third
component of the result records the argv that was handed to `spawn`
(`none` when no subprocess was started).  `uuid` is the value
`crypto.randomUUID()` would return and `now` is `Date.now()`. -/
def executeToolingTask (uuid : Str) (now : Int) (ex : Int × Str)
    (input : ToolExecutionInput) (st : ToolingState) :
    ToolingResult × ToolingState × Option (List Str) :=
  let command := extractedToolCommand input
  match sanitizeCommand command with
  | .err reason =>
    let m := (incrementMetric "tooling_needs_input_count".data 1
      [("runId".data, input.runId)] now st.metrics).2
    (.needs_input reason, { st with metrics := m }, none)
  | .ok =>
    let tokens := tokenizeCommand command
    let toolName := lowerStr (tokens.headD [])
    let toolId := toolIdFromName toolName
    let registered :=
      upsertTool toolId toolName "runtime".data (classifyTrust toolName) .pending
        [("discoveredBy".data, "harness_runtime".data),
         ("runId".data, input.runId)] now st.tools
    let st1 :=
      if (getToolByName toolName st.tools).isNone then
        { st with tools := registered }
      else st
    if !(hasActivePermission input.userId toolName "execute".data st1.permissions) then
      let requestId := "perm_".data ++ uuid
      let perms2 :=
        upsertPermission requestId input.userId toolName "execute".data
          "tool".data .pending now st1.permissions
      let ev2 : ToolEventRow :=
        ⟨toolId, "approval_required".data,
          [("runId".data, input.runId), ("userId".data, input.userId),
           ("command".data, command), ("requestId".data, requestId)], now⟩
      let m2 :=
        (incrementMetric "tooling_approval_required_count".data 1
          [("toolName".data, toolName), ("runId".data, input.runId)] now
          st1.metrics).2
      let st2 := { st1 with permissions := perms2,
                            toolEvents := st1.toolEvents ++ [ev2],
                            metrics := m2 }
      (.needs_approval requestId toolName command
        (approvalMessage toolName requestId), st2, none)
    else
      let tools3 :=
        upsertTool toolId toolName "runtime".data (classifyTrust toolName)
          .approved
          [("executedBy".data, input.userId), ("lastRunId".data, input.runId)]
          now st1.tools
      let ev3 : ToolEventRow :=
        ⟨toolId, "execute_start".data,
          [("runId".data, input.runId), ("userId".data, input.userId),
           ("command".data, command)], now⟩
      let st3 := { st1 with tools := tools3,
                            toolEvents := st1.toolEvents ++ [ev3] }
      let code := ex.1
      let output := ex.2
      if code ≠ 0 then
        let ev4 : ToolEventRow :=
          ⟨toolId, "execute_failed".data,
            [("runId".data, input.runId), ("command".data, command),
             ("output".data, output)], now⟩
        let m4 :=
          (incrementMetric "tooling_failed_count".data 1
            [("toolName".data, toolName), ("runId".data, input.runId)] now
            st3.metrics).2
        let st4 := { st3 with toolEvents := st3.toolEvents ++ [ev4],
                              metrics := m4 }
        (.failed toolName command (output.take 8000)
          ("Tool command failed for '".data ++ toolName ++ "'.".data),
         st4, some tokens)
      else
        let ev4 : ToolEventRow :=
          ⟨toolId, "execute_success".data,
            [("runId".data, input.runId), ("command".data, command),
             ("output".data, output)], now⟩
        let m4 :=
          (incrementMetric "tooling_success_count".data 1
            [("toolName".data, toolName), ("runId".data, input.runId)] now
            st3.metrics).2
        let st4 := { st3 with toolEvents := st3.toolEvents ++ [ev4],
                              metrics := m4 }
        (.completed toolName command (output.take 8000)
          ("Tool command completed: ".data ++ command), st4, some tokens)

/-! ## Theorems about the tooling executor (claims C1 and C9) -/

theorem sanitize_ok_facts {cmd : Str} (h : sanitizeCommand cmd = .ok) :
    hasShellMeta cmd = false ∧ hasSudoWord cmd = false ∧ hasRmRf cmd = false
      ∧ ALLOWED_TOOLS.contains (lowerStr ((tokenizeCommand cmd).headD []))
          = true := by
  simp only [sanitizeCommand] at h
  split_ifs at h with h1 h2 h3 h4 h5 h6
  simp_all

theorem executeToolingTask_sanitize_err (uuid : Str) (now : Int)
    (ex : Int × Str) (input : ToolExecutionInput) (st : ToolingState)
    {r : Str} (h : sanitizeCommand (extractedToolCommand input) = .err r) :
    (executeToolingTask uuid now ex input st).1 = .needs_input r
      ∧ (executeToolingTask uuid now ex input st).2.2 = none := by
  simp [executeToolingTask, h]

theorem executeToolingTask_spawned_eq (uuid : Str) (now : Int)
    (ex : Int × Str) (input : ToolExecutionInput) (st : ToolingState)
    (hok : sanitizeCommand (extractedToolCommand input) = .ok) :
    (executeToolingTask uuid now ex input st).2.2 =
      (if hasActivePermission input.userId (toolNameOf input) "execute".data
          st.permissions
       then some (tokenizeCommand (extractedToolCommand input)) else none) := by
  simp only [executeToolingTask, hok, toolNameOf]
  split
  case isTrue hreg =>
    split <;> rename_i hperm
    · simp_all
    · split <;> simp_all
  case isFalse hreg =>
    split <;> rename_i hperm
    · simp_all
    · split <;> simp_all

/-- C1: for every input to the tooling executor (objective plus optional
candidate output) and every repository state, a subprocess is only ever
spawned with the tokenization of the extracted command as argv, its
`argv[0]` lowercased is in the allowlist, and the command contains none of
`; & | `` ` (backquote), no `sudo` word and no `rm -rf` pattern; conversely an
extracted command violating any of these makes `executeToolingTask` return
`needs_input` without spawning anything. -/
theorem tooling_allowlist (uuid : Str) (now : Int) (ex : Int × Str)
    (input : ToolExecutionInput) (st : ToolingState) :
    (∀ argv, (executeToolingTask uuid now ex input st).2.2 = some argv →
        argv = tokenizeCommand (extractedToolCommand input)
        ∧ lowerStr (argv.headD []) ∈ ALLOWED_TOOLS
        ∧ hasShellMeta (extractedToolCommand input) = false
        ∧ hasSudoWord (extractedToolCommand input) = false
        ∧ hasRmRf (extractedToolCommand input) = false)
    ∧ ((hasShellMeta (extractedToolCommand input)
          || hasSudoWord (extractedToolCommand input)
          || hasRmRf (extractedToolCommand input)
          || !(ALLOWED_TOOLS.contains (toolNameOf input))) = true →
        (∃ msg, (executeToolingTask uuid now ex input st).1 = .needs_input msg)
          ∧ (executeToolingTask uuid now ex input st).2.2 = none) := by
  constructor
  · intro argv hsp
    cases hs : sanitizeCommand (extractedToolCommand input) with
    | err r =>
      have := (executeToolingTask_sanitize_err uuid now ex input st hs).2
      rw [this] at hsp
      exact absurd hsp (by simp)
    | ok =>
      have hfacts := sanitize_ok_facts hs
      have hsp' := executeToolingTask_spawned_eq uuid now ex input st hs
      rw [hsp'] at hsp
      split at hsp
      · cases hsp
        refine ⟨rfl, ?_, hfacts.1, hfacts.2.1, hfacts.2.2.1⟩
        have := hfacts.2.2.2
        simpa [List.contains_iff_exists_mem_beq] using this
      · exact absurd hsp (by simp)
  · intro hbad
    cases hs : sanitizeCommand (extractedToolCommand input) with
    | err r =>
      have h := executeToolingTask_sanitize_err uuid now ex input st hs
      exact ⟨⟨r, h.1⟩, h.2⟩
    | ok =>
      exfalso
      have hfacts := sanitize_ok_facts hs
      simp only [toolNameOf] at hbad
      simp [hfacts.1, hfacts.2.1, hfacts.2.2.1, hfacts.2.2.2] at hbad
      exact hbad (by simpa using List.elem_iff.mp hfacts.2.2.2)

/-- Witness for C1 at a concrete unsafe input: the command extracted from
`"npm test | tee log"` contains a pipe, so the executor answers
`needs_input` and spawns nothing. -/
def emptyToolingState : ToolingState := ⟨[], [], [], ⟨[], []⟩⟩

def pipeInput : ToolExecutionInput :=
  ⟨"r1".data, "u1".data, "npm test | tee log".data, [], "/w".data⟩

theorem tooling_allowlist_witness :
    (∃ msg, (executeToolingTask "uid".data 0 (0, []) pipeInput
        emptyToolingState).1 = ToolingResult.needs_input msg)
      ∧ (executeToolingTask "uid".data 0 (0, []) pipeInput
          emptyToolingState).2.2 = none :=
  (tooling_allowlist "uid".data 0 (0, []) pipeInput emptyToolingState).2
    (by decide)

/-- C9: when the extracted command passes sanitization but the user holds no
active `(user, tool, execute)` permission, `executeToolingTask` writes a
`pending` permission under the freshly generated requestId
`perm_<uuid>` and returns `needs_approval` with a message naming that
requestId, without spawning the command. -/
theorem tooling_needs_approval (uuid : Str) (now : Int) (ex : Int × Str)
    (input : ToolExecutionInput) (st : ToolingState)
    (hok : sanitizeCommand (extractedToolCommand input) = .ok)
    (hperm : hasActivePermission input.userId (toolNameOf input)
        "execute".data st.permissions = false)
    (hfresh : ∀ p ∈ st.permissions, p.permission_id ≠ "perm_".data ++ uuid) :
    (executeToolingTask uuid now ex input st).1 =
        .needs_approval ("perm_".data ++ uuid) (toolNameOf input)
          (extractedToolCommand input)
          (approvalMessage (toolNameOf input) ("perm_".data ++ uuid))
      ∧ (executeToolingTask uuid now ex input st).2.2 = none
      ∧ (∃ pre post, approvalMessage (toolNameOf input) ("perm_".data ++ uuid)
          = pre ++ ("perm_".data ++ uuid) ++ post)
      ∧ (∃ p ∈ (executeToolingTask uuid now ex input st).2.1.permissions,
          p.permission_id = "perm_".data ++ uuid ∧ p.user_id = input.userId
            ∧ p.subject = toolNameOf input ∧ p.action = "execute".data
            ∧ p.status = PermStatus.pending) := by
  have hany : st.permissions.any
      (fun p => p.permission_id = "perm_".data ++ uuid) = false := by
    simp only [List.any_eq_false]
    intro p hp
    simpa using hfresh p hp
  simp only [executeToolingTask, hok, toolNameOf] at *
  refine ⟨?_, ?_, ?_, ?_⟩
  · split <;> simp_all
  · split <;> simp_all
  · exact ⟨"Tool execution requires approval for '".data
        ++ lowerStr ((tokenizeCommand (extractedToolCommand input)).headD [])
        ++ "'. Reply with /approve ".data,
      " or /deny ".data ++ ("perm_".data ++ uuid) ++ ".".data,
      by simp [approvalMessage]⟩
  · split <;> rename_i hreg <;>
      · simp only [hperm, Bool.not_false, if_true, upsertPermission, hany,
          Bool.false_eq_true, if_false]
        refine ⟨_, List.mem_append_right _ (List.mem_singleton.mpr rfl), ?_⟩
        simp

/-- Concrete input for the C9 witness: a safe allowlisted command and a user
with no permissions. -/
def npmInput : ToolExecutionInput :=
  ⟨"r2".data, "u2".data, "npm install left-pad".data, [], "/w".data⟩

theorem tooling_needs_approval_witness :
    (executeToolingTask "uid9".data 0 (0, []) npmInput emptyToolingState).1 =
        ToolingResult.needs_approval ("perm_".data ++ "uid9".data)
          (toolNameOf npmInput) (extractedToolCommand npmInput)
          (approvalMessage (toolNameOf npmInput) ("perm_".data ++ "uid9".data))
      ∧ (executeToolingTask "uid9".data 0 (0, []) npmInput
          emptyToolingState).2.2 = none
      ∧ (∃ pre post,
          approvalMessage (toolNameOf npmInput) ("perm_".data ++ "uid9".data)
            = pre ++ ("perm_".data ++ "uid9".data) ++ post)
      ∧ (∃ p ∈ (executeToolingTask "uid9".data 0 (0, []) npmInput
            emptyToolingState).2.1.permissions,
          p.permission_id = "perm_".data ++ "uid9".data
            ∧ p.user_id = npmInput.userId ∧ p.subject = toolNameOf npmInput
            ∧ p.action = "execute".data ∧ p.status = PermStatus.pending) :=
  tooling_needs_approval "uid9".data 0 (0, []) npmInput emptyToolingState
    (by decide) (by decide) (by simp [emptyToolingState])

/-! ## Task-run repository (`src/harness/repository.ts`): supersession and
blocked-run outreach (claims C4, C5, C10) -/

/-- `RunStatus` from `src/harness/types.ts`. -/
inductive RunStatus
  | queued
  | in_progress
  | needs_input
  | needs_revision
  | verified
  | rejected
  | awaiting_approval
  | sent
  | failed
deriving DecidableEq, Repr

/-- A row of the `task_runs` table (the columns the modelled queries touch). -/
structure TaskRunRow where
  run_id : Str
  channel : Str
  sender : Str
  sender_id : Str
  status : RunStatus
  objective : Str
  result_text : Str
  created_at : Int
  updated_at : Int
deriving DecidableEq, Repr

/-- The `WHERE` clause of the select inside `supersedeNeedsInputRuns`. -/
def supersedeMatch (channel senderId : Str) (beforeTs : Int)
    (r : TaskRunRow) : Bool :=
  r.channel = channel && r.sender_id = senderId && r.status = .needs_input
    && r.updated_at < beforeTs

/-- `ORDER BY updated_at ASC` of the modelled queries (SQLite leaves the
relative order of ties unspecified; insertion sort realizes one admissible
order). -/
def orderByUpdatedAt (rows : List TaskRunRow) : List TaskRunRow :=
  rows.insertionSort (fun a b => a.updated_at ≤ b.updated_at)

/-- `supersedeNeedsInputRuns` from `repository.ts`: select the matching rows
ordered by `updated_at` ascending with `LIMIT 200`, set each selected row to
`rejected` with a fresh `updated_at`, and return the selected ids.  The
result is `(returned ids, new table)`. -/
def supersedeNeedsInputRuns (store : List TaskRunRow) (channel senderId : Str)
    (beforeTs now : Int) : List Str × List TaskRunRow :=
  if senderId.isEmpty then ([], store)
  else
    let rows := (orderByUpdatedAt
      (store.filter (supersedeMatch channel senderId beforeTs))).take 200
    if rows.isEmpty then ([], store)
    else
      let ids := rows.map (fun r => r.run_id)
      (ids, store.map (fun r =>
        if ids.contains r.run_id then
          { r with status := .rejected, updated_at := now }
        else r))

/-- The `WHERE` clause of `listBlockedRunsForOutreach`, including its
`NOT EXISTS` anti-join: no sibling run of the same `(channel, sender_id)`
was created after this run's `updated_at`. -/
def blockedOutreachMatch (store : List TaskRunRow) (cutoff : Int)
    (r : TaskRunRow) : Bool :=
  (r.status = RunStatus.needs_input || r.status = RunStatus.awaiting_approval)
    && !r.sender_id.isEmpty
    && r.updated_at ≤ cutoff
    && !(store.any (fun newer =>
        newer.channel = r.channel && newer.sender_id = r.sender_id
          && !(newer.run_id = r.run_id) && r.updated_at < newer.created_at))

/-- `listBlockedRunsForOutreach` from `repository.ts` (`limit` defaults to
100, clamped into `[1, 1000]`; ordered by `updated_at` ascending). -/
def listBlockedRunsForOutreach (store : List TaskRunRow)
    (now minAgeMs : Int) (limit : Nat := 100) : List TaskRunRow :=
  let cutoff := now - max 0 minAgeMs
  (orderByUpdatedAt (store.filter (blockedOutreachMatch store cutoff))).take
    (Nat.max 1 (Nat.min limit 1000))

/-- C10: calling `supersedeNeedsInputRuns` with an empty `senderId` returns
the empty id list and leaves the task-run store entirely unchanged. -/
theorem supersede_empty_sender_frame (store : List TaskRunRow)
    (channel : Str) (beforeTs now : Int) :
    supersedeNeedsInputRuns store channel [] beforeTs now = ([], store) := by
  simp [supersedeNeedsInputRuns]

/-- C4 (amended): for a non-empty `senderId` and a store whose `run_id` is a
key, as long as at most 200 rows match (the `LIMIT 200` of the query),
`supersedeNeedsInputRuns` returns exactly the ids of the `(channel,
senderId)` runs in `needs_input` older than the cutoff, marks each of them
`rejected` (with a fresh `updated_at`), and keeps every other row. -/
theorem supersede_marks_matching (store : List TaskRunRow)
    (channel senderId : Str) (beforeTs now : Int)
    (hsid : senderId ≠ [])
    (hkey : ∀ r1 ∈ store, ∀ r2 ∈ store, r1.run_id = r2.run_id → r1 = r2)
    (hcount : (store.filter (supersedeMatch channel senderId beforeTs)).length
        ≤ 200) :
    (∀ id, id ∈ (supersedeNeedsInputRuns store channel senderId beforeTs now).1
        ↔ ∃ r ∈ store, supersedeMatch channel senderId beforeTs r = true
            ∧ r.run_id = id)
    ∧ (∀ r ∈ store, supersedeMatch channel senderId beforeTs r = true →
        { r with status := RunStatus.rejected, updated_at := now }
          ∈ (supersedeNeedsInputRuns store channel senderId beforeTs now).2)
    ∧ (∀ r ∈ store, supersedeMatch channel senderId beforeTs r = false →
        r ∈ (supersedeNeedsInputRuns store channel senderId beforeTs now).2) := by
  have hsid' : senderId.isEmpty = false := by
    simpa [List.isEmpty_iff] using hsid
  have hperm := List.perm_insertionSort
    (fun a b : TaskRunRow => a.updated_at ≤ b.updated_at)
    (store.filter (supersedeMatch channel senderId beforeTs))
  have htake : (orderByUpdatedAt
      (store.filter (supersedeMatch channel senderId beforeTs))).take 200 =
      orderByUpdatedAt (store.filter (supersedeMatch channel senderId beforeTs)) :=
    List.take_of_length_le (by rw [orderByUpdatedAt, hperm.length_eq]; exact hcount)
  have hmem : ∀ a, a ∈ orderByUpdatedAt
      (store.filter (supersedeMatch channel senderId beforeTs)) ↔
      a ∈ store.filter (supersedeMatch channel senderId beforeTs) :=
    fun a => hperm.mem_iff
  simp only [supersedeNeedsInputRuns, hsid', Bool.false_eq_true, if_false, htake]
  by_cases hemp : (orderByUpdatedAt
      (store.filter (supersedeMatch channel senderId beforeTs))).isEmpty
  · have hnil : orderByUpdatedAt
        (store.filter (supersedeMatch channel senderId beforeTs)) = [] := by
      simpa [List.isEmpty_iff] using hemp
    have hfnil : store.filter (supersedeMatch channel senderId beforeTs) = [] :=
      List.eq_nil_of_length_eq_zero (by rw [← hperm.length_eq, ← orderByUpdatedAt, hnil]; rfl)
    simp only [hemp, if_true]
    refine ⟨?_, ?_, ?_⟩
    · intro id
      simp only [List.not_mem_nil, false_iff]
      rintro ⟨r, hr, hmatch, _⟩
      have : r ∈ store.filter (supersedeMatch channel senderId beforeTs) :=
        List.mem_filter.mpr ⟨hr, hmatch⟩
      simp [hfnil] at this
    · intro r hr hmatch
      have : r ∈ store.filter (supersedeMatch channel senderId beforeTs) :=
        List.mem_filter.mpr ⟨hr, hmatch⟩
      simp [hfnil] at this
    · intro r hr _
      exact hr
  · simp only [hemp, if_false]
    refine ⟨?_, ?_, ?_⟩
    · intro id
      constructor
      · intro hid
        obtain ⟨r, hr, hrid⟩ := List.mem_map.mp hid
        have hrF := (hmem r).mp hr
        obtain ⟨hrstore, hrmatch⟩ := List.mem_filter.mp hrF
        exact ⟨r, hrstore, hrmatch, hrid⟩
      · rintro ⟨r, hrstore, hrmatch, hrid⟩
        exact List.mem_map.mpr ⟨r,
          (hmem r).mpr (List.mem_filter.mpr ⟨hrstore, hrmatch⟩), hrid⟩
    · intro r hr hmatch
      have hrS : r ∈ orderByUpdatedAt
          (store.filter (supersedeMatch channel senderId beforeTs)) :=
        (hmem r).mpr (List.mem_filter.mpr ⟨hr, hmatch⟩)
      have hcont : (List.map (fun r => r.run_id) (orderByUpdatedAt
          (store.filter (supersedeMatch channel senderId beforeTs)))).contains
          r.run_id = true :=
        List.elem_iff.mpr (List.mem_map.mpr ⟨r, hrS, rfl⟩)
      refine List.mem_map.mpr ⟨r, hr, ?_⟩
      simp only [hcont, if_true]
    · intro r hr hmatch
      have hcont : (List.map (fun r => r.run_id) (orderByUpdatedAt
          (store.filter (supersedeMatch channel senderId beforeTs)))).contains
          r.run_id = false := by
        by_contra hc
        have hc' := List.elem_iff.mp (Bool.of_not_eq_false hc)
        obtain ⟨r', hr'S, hr'id⟩ := List.mem_map.mp hc'
        obtain ⟨hr'store, hr'match⟩ := List.mem_filter.mp ((hmem r').mp hr'S)
        have := hkey r' hr'store r hr hr'id
        rw [this] at hr'match
        rw [hr'match] at hmatch
        exact absurd hmatch (by simp)
      refine List.mem_map.mpr ⟨r, hr, ?_⟩
      simp only [hcont, Bool.false_eq_true, if_false]

/-- Concrete store for the C4 witness: two runs of user `u`, one matching. -/
def superWitnessStore : List TaskRunRow :=
  [{ run_id := "a".data, channel := "wa".data, sender := "s".data,
     sender_id := "u".data, status := .needs_input, objective := [],
     result_text := [], created_at := 1, updated_at := 1 },
   { run_id := "b".data, channel := "wa".data, sender := "s".data,
     sender_id := "u".data, status := .verified, objective := [],
     result_text := [], created_at := 2, updated_at := 2 }]

theorem supersede_marks_matching_witness :
    ((∀ id, id ∈ (supersedeNeedsInputRuns superWitnessStore "wa".data "u".data
        100 500).1 ↔ ∃ r ∈ superWitnessStore,
          supersedeMatch "wa".data "u".data 100 r = true ∧ r.run_id = id)
      ∧ (∀ r ∈ superWitnessStore,
          supersedeMatch "wa".data "u".data 100 r = true →
          { r with status := RunStatus.rejected, updated_at := (500 : Int) }
            ∈ (supersedeNeedsInputRuns superWitnessStore "wa".data "u".data
                100 500).2)
      ∧ (∀ r ∈ superWitnessStore,
          supersedeMatch "wa".data "u".data 100 r = false →
          r ∈ (supersedeNeedsInputRuns superWitnessStore "wa".data "u".data
              100 500).2)) :=
  supersede_marks_matching superWitnessStore "wa".data "u".data 100 500
    (by decide) (by decide) (by decide)

/-- Concrete store for the C4 counterexample: 201 matching `needs_input`
runs, one more than the query's `LIMIT 200`. -/
def superBigStore : List TaskRunRow :=
  (List.range 201).map (fun i =>
    { run_id := [Char.ofNat (33 + i)], channel := "wa".data,
      sender := "s".data, sender_id := "u".data, status := .needs_input,
      objective := [], result_text := [], created_at := (i : Int),
      updated_at := (i : Int) })

/-- C4 counterexample: with 201 matching runs, `supersedeNeedsInputRuns`
returns only 200 ids and one `(channel, senderId)` run in `needs_input`
older than the cutoff survives unmarked in the returned store, so the claim
"marks all task runs … and returns exactly the ids of those runs" fails. -/
theorem supersede_limit_counterexample :
    (supersedeNeedsInputRuns superBigStore "wa".data "u".data 1000
        5000).1.length = 200
    ∧ ∃ r ∈ (supersedeNeedsInputRuns superBigStore "wa".data "u".data 1000
        5000).2, supersedeMatch "wa".data "u".data 1000 r = true := by
  constructor
  · decide
  · decide

/-- C5 (amended): under the query's `LIMIT` (default 100), a run is in the
outreach result exactly when it is a blocked (`needs_input` or
`awaiting_approval`) run with non-empty `senderId`, `updated_at` at most
`now - max 0 minAge`, and no sibling run of the same `(channel, senderId)`
was *created* after this run's `updated_at`.  This does not make the result
unique per `(channel, senderId)`. -/
theorem blocked_outreach_membership (store : List TaskRunRow)
    (now minAgeMs : Int) (limit : Nat)
    (hcount : (store.filter
        (blockedOutreachMatch store (now - max 0 minAgeMs))).length
        ≤ Nat.max 1 (Nat.min limit 1000)) :
    ∀ r, r ∈ listBlockedRunsForOutreach store now minAgeMs limit ↔
      r ∈ store ∧ blockedOutreachMatch store (now - max 0 minAgeMs) r = true := by
  have hperm := List.perm_insertionSort
    (fun a b : TaskRunRow => a.updated_at ≤ b.updated_at)
    (store.filter (blockedOutreachMatch store (now - max 0 minAgeMs)))
  have htake : (orderByUpdatedAt (store.filter
      (blockedOutreachMatch store (now - max 0 minAgeMs)))).take
      (Nat.max 1 (Nat.min limit 1000)) =
      orderByUpdatedAt (store.filter
        (blockedOutreachMatch store (now - max 0 minAgeMs))) :=
    List.take_of_length_le (by rw [orderByUpdatedAt, hperm.length_eq]; exact hcount)
  intro r
  simp only [listBlockedRunsForOutreach, htake]
  rw [show (r ∈ orderByUpdatedAt (store.filter
      (blockedOutreachMatch store (now - max 0 minAgeMs)))) ↔
      (r ∈ store.filter (blockedOutreachMatch store (now - max 0 minAgeMs)))
    from hperm.mem_iff]
  exact List.mem_filter

/-- Store for the C5 witness: one blocked run and one unrelated verified
run. -/
def blockedWitnessRow : TaskRunRow :=
  { run_id := "a".data, channel := "wa".data, sender := "s".data,
    sender_id := "u".data, status := .needs_input, objective := [],
    result_text := [], created_at := 10, updated_at := 10 }

def blockedWitnessStore : List TaskRunRow :=
  [blockedWitnessRow,
   { run_id := "b".data, channel := "wa".data, sender := "s".data,
     sender_id := "v".data, status := .verified, objective := [],
     result_text := [], created_at := 20, updated_at := 20 }]

theorem blocked_outreach_membership_witness :
    blockedWitnessRow ∈ listBlockedRunsForOutreach blockedWitnessStore 200 0 100
      ↔ blockedWitnessRow ∈ blockedWitnessStore
        ∧ blockedOutreachMatch blockedWitnessStore (200 - max 0 0)
            blockedWitnessRow = true :=
  blocked_outreach_membership blockedWitnessStore 200 0 100 (by decide)
    blockedWitnessRow

/-- Store for the C5 counterexample: two blocked runs of the same
`(channel, senderId)`, each created no later than the other's last update,
so neither has a "newer" sibling in the sense of the query's anti-join. -/
def blockedDupStore : List TaskRunRow :=
  [{ run_id := "a".data, channel := "wa".data, sender := "s".data,
     sender_id := "u".data, status := .needs_input, objective := [],
     result_text := [], created_at := 10, updated_at := 100 },
   { run_id := "b".data, channel := "wa".data, sender := "s".data,
     sender_id := "u".data, status := .needs_input, objective := [],
     result_text := [], created_at := 20, updated_at := 150 }]

/-- C5 counterexample: `listBlockedRunsForOutreach` returns two distinct
runs for the same `(channel, senderId)`, refuting "the result never contains
two runs for the same (channel, senderId)". -/
theorem blocked_outreach_duplicate_counterexample :
    ∃ r1 ∈ listBlockedRunsForOutreach blockedDupStore 200 0,
    ∃ r2 ∈ listBlockedRunsForOutreach blockedDupStore 200 0,
      r1.run_id ≠ r2.run_id ∧ r1.channel = r2.channel
        ∧ r1.sender_id = r2.sender_id := by decide

/-! ## Memory service (`src/harness/memory/service.ts` and the
`memory_records` table of `repository.ts`) — claim C6 -/

/-- The memory categories of `MemoryInsertInput`. -/
inductive MemoryCategory
  | preferences
  | projects
  | workflows
  | contacts
  | task_states
  | confirmed_facts
deriving DecidableEq, Repr

/-- The text inserted for a category in the id hash (`${category}`). -/
def MemoryCategory.asText : MemoryCategory → Str
  | .preferences => "preferences".data
  | .projects => "projects".data
  | .workflows => "workflows".data
  | .contacts => "contacts".data
  | .task_states => "task_states".data
  | .confirmed_facts => "confirmed_facts".data

/-- `MemoryInsertInput` from `repository.ts`; `confidence` is a JS number
modelled as a rational. -/
structure MemoryInsertInput where
  recordId : Str
  userId : Str
  category : MemoryCategory
  key : Str
  value : Str
  confidence : ℚ
  sourceRunId : Str
deriving DecidableEq, Repr

/-- A row of the `memory_records` table. -/
structure MemoryRow where
  record_id : Str
  user_id : Str
  category : MemoryCategory
  key : Str
  value : Str
  confidence : ℚ
  source_run_id : Str
  created_at : Int
  updated_at : Int
deriving DecidableEq, Repr

/-- `upsertMemoryRecord` from `repository.ts`: conflict key `record_id`,
update columns `value`, `confidence`, `source_run_id`, `updated_at`. -/
def upsertMemoryRecord (input : MemoryInsertInput) (now : Int)
    (store : List MemoryRow) : List MemoryRow :=
  if store.any (fun r => r.record_id = input.recordId) then
    store.map (fun r =>
      if r.record_id = input.recordId then
        { r with value := input.value, confidence := input.confidence,
                 source_run_id := input.sourceRunId, updated_at := now }
      else r)
  else
    store ++ [{ record_id := input.recordId, user_id := input.userId,
                category := input.category, key := input.key,
                value := input.value, confidence := input.confidence,
                source_run_id := input.sourceRunId, created_at := now,
                updated_at := now }]

/-- `deterministicMemoryId` from `memory/service.ts`.  The SHA-1 of the
crypto library is external: `sha1` maps the hashed text to its hex digest,
of which the first 16 characters are kept. -/
def deterministicMemoryId (sha1 : Str → Str) (userId : Str)
    (category : MemoryCategory) (key : Str) : Str :=
  "mem_".data ++
    (sha1 (userId ++ ":".data ++ category.asText ++ ":".data ++ lowerStr key)).take 16

/-- Greedy match of `[<cls>]*(.+)$` (`$` at true end of input, `.` excluding
newline) against the text after an extractor phrase: the separator class is
consumed greedily and backtracks only when `(.+)` would otherwise be
empty. -/
def sepCapture (sepP : Char → Bool) : Str → Option Str
  | [] => none
  | c :: rest =>
    if sepP c then
      match sepCapture sepP rest with
      | some cap => some cap
      | none =>
        if !(c = '\n') && rest.all (fun x => !(x = '\n')) then some (c :: rest)
        else none
    else
      if !(c = '\n') && rest.all (fun x => !(x = '\n')) then some (c :: rest)
      else none

/-- Alternation `\b(p1|p2|…)\b` at one position: phrases are tried in
order, and on capture failure the next alternative is tried (regex
backtracking into the alternation). -/
def tryPhrasesAt (sepP : Char → Bool) : List Str → Str → Option Str
  | [], _ => none
  | p :: ps, l =>
    if startsWithCI p l && boundaryAfter (l.drop p.length) then
      match sepCapture sepP (l.drop p.length) with
      | some cap => some cap
      | none => tryPhrasesAt sepP ps l
    else tryPhrasesAt sepP ps l

def findPhraseCaptureAux (phrases : List Str) (sepP : Char → Bool) :
    Option Char → Str → Option Str
  | _, [] => none
  | prev, l@(c :: rest) =>
    match (if boundaryBefore prev then tryPhrasesAt sepP phrases l else none) with
    | some cap => some cap
    | none => findPhraseCaptureAux phrases sepP (some c) rest

/-- The leftmost capture of `/\b(p1|p2|…)\b[<cls>]*(.+)$/i` on `text`
(the `match[2]` of the extractors of `buildMemoryRowsFromText`). -/
def findPhraseCapture (phrases : List Str) (sepP : Char → Bool)
    (text : Str) : Option Str :=
  findPhraseCaptureAux phrases sepP none text

/-- The separator class `[:\s-]` of most extractors. -/
def prefSep (c : Char) : Bool := c = ':' || isJsWs c || c = '-'

/-- The separator class `[,:\s-]` of the correction extractor. -/
def corrSep (c : Char) : Bool := c = ',' || c = ':' || isJsWs c || c = '-'

/-- `buildMemoryRowsFromText` from `memory/service.ts`: the five regex
extractors, in source order; `recordId`/`userId` are filled in only at
upsert time (empty here, as in the source). -/
def buildMemoryRowsFromText (text : Str) : List MemoryInsertInput :=
  let preferenceRows :=
    match findPhraseCapture
        ["i prefer".data, "please always".data, "my preference is".data,
         "i usually".data] prefSep text with
    | some m2 =>
      [{ recordId := [], userId := [], category := .preferences,
         key := "preference".data, value := jsTrim m2,
         confidence := if hasWordCI "always".data m2 || hasWordCI "must".data m2
           then (0.95 : ℚ) else (0.85 : ℚ), sourceRunId := [] }]
    | none => []
  let workflowRows :=
    match findPhraseCapture
        ["this is my workflow".data, "how i do this".data, "process is".data]
        prefSep text with
    | some m2 =>
      [{ recordId := [], userId := [], category := .workflows,
         key := "workflow".data, value := jsTrim m2,
         confidence := (0.82 : ℚ), sourceRunId := [] }]
    | none => []
  let projectRows :=
    match findPhraseCapture
        ["project".data, "working on".data, "build".data] prefSep text with
    | some m2 =>
      if hasWordCI "project".data text then
        [{ recordId := [], userId := [], category := .projects,
           key := "active_project".data, value := jsTrim m2,
           confidence := (0.7 : ℚ), sourceRunId := [] }]
      else []
    | none => []
  let taskRows :=
    match findPhraseCapture
        ["remember that".data, "remind me".data, "i need to".data]
        prefSep text with
    | some m2 =>
      [{ recordId := [], userId := [], category := .task_states,
         key := "task_state".data, value := jsTrim m2,
         confidence := (0.72 : ℚ), sourceRunId := [] }]
    | none => []
  let correctionRows :=
    match findPhraseCapture ["actually".data] corrSep text with
    | some m1 =>
      [{ recordId := [], userId := [], category := .confirmed_facts,
         key := "explicit_correction".data, value := jsTrim m1,
         confidence := (0.9 : ℚ), sourceRunId := [] }]
    | none => []
  preferenceRows ++ workflowRows ++ projectRows ++ taskRows ++ correctionRows

/-- The dedup map of `ingestMemorySignals`: a JS `Map` keyed by
`category:key:lower(value)`, where `set` keeps the original insertion
position; an entry is replaced only by a strictly higher confidence. -/
def dedupMemoryRows (rawRows : List MemoryInsertInput) :
    List ((MemoryCategory × Str × Str) × MemoryInsertInput) :=
  rawRows.foldl (fun m row =>
    let k := (row.category, row.key, lowerStr row.value)
    match m.find? (fun kv => kv.1 = k) with
    | some kv =>
      if row.confidence > kv.2.confidence then
        m.map (fun kv2 => if kv2.1 = k then (k, row) else kv2)
      else m
    | none => m ++ [(k, row)]) []

/-- `ingestMemorySignals` from `memory/service.ts`: extract rows from
objective and response, dedup, then upsert each under its deterministic id.
Returns the number of deduped rows and the new table. -/
def ingestMemorySignals (sha1 : Str → Str) (userId runId : Str)
    (objective responseText : Str) (now : Int)
    (store : List MemoryRow) : Nat × List MemoryRow :=
  let rawRows := buildMemoryRowsFromText objective
    ++ buildMemoryRowsFromText responseText
  if rawRows.isEmpty then (0, store)
  else
    let dedup := dedupMemoryRows rawRows
    let finalStore := dedup.foldl (fun st kv =>
      upsertMemoryRecord
        { recordId := deterministicMemoryId sha1 userId kv.2.category kv.2.key,
          userId := userId, category := kv.2.category, key := kv.2.key,
          value := kv.2.value, confidence := kv.2.confidence,
          sourceRunId := runId } now st) store
    (dedup.length, finalStore)

theorem upsertMemoryRecord_facts (input : MemoryInsertInput) (now : Int)
    (store : List MemoryRow) :
    (∀ r ∈ upsertMemoryRecord input now store, r.record_id = input.recordId →
        r.value = input.value ∧ r.confidence = input.confidence)
    ∧ (∃ r ∈ upsertMemoryRecord input now store, r.record_id = input.recordId)
    ∧ (∀ r ∈ upsertMemoryRecord input now store,
        r.record_id ≠ input.recordId → r ∈ store) := by
  unfold upsertMemoryRecord
  split
  case isTrue hany =>
    refine ⟨?_, ?_, ?_⟩
    · intro r hr hid
      obtain ⟨a, ha, hfa⟩ := List.mem_map.mp hr
      by_cases hid' : a.record_id = input.recordId
      · rw [if_pos hid'] at hfa
        rw [← hfa]
        exact ⟨rfl, rfl⟩
      · rw [if_neg hid'] at hfa
        rw [← hfa] at hid
        exact absurd hid hid'
    · obtain ⟨a, ha, haid⟩ := List.any_eq_true.mp hany
      have haid' : a.record_id = input.recordId := by simpa using haid
      refine ⟨_, List.mem_map.mpr ⟨a, ha, rfl⟩, ?_⟩
      rw [if_pos haid']
      exact haid'
    · intro r hr hid
      obtain ⟨a, ha, hfa⟩ := List.mem_map.mp hr
      by_cases hid' : a.record_id = input.recordId
      · rw [if_pos hid'] at hfa
        rw [← hfa] at hid
        simp at hid
        exact absurd hid' hid
      · rw [if_neg hid'] at hfa
        rw [← hfa]
        exact ha
  case isFalse hany =>
    refine ⟨?_, ?_, ?_⟩
    · intro r hr hid
      rcases List.mem_append.mp hr with h | h
      · have hc : (store.any fun x => decide (x.record_id = input.recordId))
            = true := List.any_eq_true.mpr ⟨r, h, decide_eq_true hid⟩
        exact absurd hc hany
      · rw [List.mem_singleton.mp h]
        exact ⟨rfl, rfl⟩
    · exact ⟨_, List.mem_append_right _ (List.mem_singleton.mpr rfl), rfl⟩
    · intro r hr hid
      rcases List.mem_append.mp hr with h | h
      · exact h
      · rw [List.mem_singleton.mp h] at hid
        simp at hid

/-- C6 (amended): record ids are the deterministic hash of
`(user, category, key)`, so two upserts targeting the same triple hit the
same row; after the second upsert every row under that id carries the second
value and confidence — the newest ingest wins unconditionally, even when its
confidence is lower — and rows under other ids are untouched. -/
theorem memory_newest_ingest_wins (sha1 : Str → Str) (u key v1 v2 r1 r2 : Str)
    (cat : MemoryCategory) (c1 c2 : ℚ) (t1 t2 : Int)
    (store : List MemoryRow) :
    (∀ r ∈ upsertMemoryRecord
        ⟨deterministicMemoryId sha1 u cat key, u, cat, key, v2, c2, r2⟩ t2
        (upsertMemoryRecord
          ⟨deterministicMemoryId sha1 u cat key, u, cat, key, v1, c1, r1⟩ t1
          store),
      r.record_id = deterministicMemoryId sha1 u cat key →
        r.value = v2 ∧ r.confidence = c2)
    ∧ (∃ r ∈ upsertMemoryRecord
        ⟨deterministicMemoryId sha1 u cat key, u, cat, key, v2, c2, r2⟩ t2
        (upsertMemoryRecord
          ⟨deterministicMemoryId sha1 u cat key, u, cat, key, v1, c1, r1⟩ t1
          store),
      r.record_id = deterministicMemoryId sha1 u cat key)
    ∧ (∀ r ∈ upsertMemoryRecord
        ⟨deterministicMemoryId sha1 u cat key, u, cat, key, v2, c2, r2⟩ t2
        (upsertMemoryRecord
          ⟨deterministicMemoryId sha1 u cat key, u, cat, key, v1, c1, r1⟩ t1
          store),
      r.record_id ≠ deterministicMemoryId sha1 u cat key → r ∈ store) := by
  have h1 := upsertMemoryRecord_facts
    ⟨deterministicMemoryId sha1 u cat key, u, cat, key, v1, c1, r1⟩ t1 store
  have h2 := upsertMemoryRecord_facts
    ⟨deterministicMemoryId sha1 u cat key, u, cat, key, v2, c2, r2⟩ t2
    (upsertMemoryRecord
      ⟨deterministicMemoryId sha1 u cat key, u, cat, key, v1, c1, r1⟩ t1 store)
  exact ⟨h2.1, h2.2.1, fun r hr hid => h1.2.2 r (h2.2.2 r hr hid) hid⟩

/-- The identity oracle standing in for the external SHA-1 hex digest in the
concrete C6 counterexample. -/
def idSha1 : Str → Str := fun l => l

/-- C6 counterexample: ingesting `"I prefer dark mode always"` stores the
preference with confidence 0.95; a later ingest of `"I prefer light mode"`
(confidence 0.85) *replaces* value and confidence, so a stored record is
replaced by a lower-confidence ingest, refuting "newer ingest with higher
confidence wins". -/
theorem memory_lower_confidence_overwrites :
    (∃ r ∈ (ingestMemorySignals idSha1 "u".data "r1".data
        "I prefer dark mode always".data [] 10 []).2,
      r.record_id = deterministicMemoryId idSha1 "u".data .preferences
          "preference".data
        ∧ r.value = "dark mode always".data ∧ r.confidence = (0.95 : ℚ))
    ∧ (∃ r ∈ (ingestMemorySignals idSha1 "u".data "r2".data
        "I prefer light mode".data [] 20
        (ingestMemorySignals idSha1 "u".data "r1".data
          "I prefer dark mode always".data [] 10 []).2).2,
      r.record_id = deterministicMemoryId idSha1 "u".data .preferences
          "preference".data
        ∧ r.value = "light mode".data ∧ r.confidence = (0.85 : ℚ)) := by
  have h1 : (ingestMemorySignals idSha1 "u".data "r1".data
      "I prefer dark mode always".data [] 10 []).2 =
      [{ record_id := "mem_u:preferences:pr".data, user_id := "u".data,
         category := .preferences, key := "preference".data,
         value := "dark mode always".data, confidence := (0.95 : ℚ),
         source_run_id := "r1".data, created_at := 10, updated_at := 10 }] := by
    rfl
  have h2 : (ingestMemorySignals idSha1 "u".data "r2".data
      "I prefer light mode".data [] 20
      (ingestMemorySignals idSha1 "u".data "r1".data
        "I prefer dark mode always".data [] 10 []).2).2 =
      [{ record_id := "mem_u:preferences:pr".data, user_id := "u".data,
         category := .preferences, key := "preference".data,
         value := "light mode".data, confidence := (0.85 : ℚ),
         source_run_id := "r2".data, created_at := 10, updated_at := 20 }] := by
    rw [h1]; rfl
  constructor
  · rw [h1]
    exact ⟨_, List.mem_singleton.mpr rfl, by decide, rfl, rfl⟩
  · rw [h2]
    exact ⟨_, List.mem_singleton.mpr rfl, by decide, rfl, rfl⟩

/-! ## Durable pending-message store (claim C7):
`src/lib/pending-messages` (part_003) over the `channel_pending_messages`
table of `repository.ts` -/

/-- A row of the `channel_pending_messages` table. -/
structure ChannelPendingMessageRow where
  message_id : Str
  channel : Str
  sender : Str
  sender_id : Str
  chat_ref : Str
  reply_ref : Str
  expires_at : Int
  created_at : Int
  updated_at : Int
deriving DecidableEq, Repr

/-- `getChannelPendingMessage` from `repository.ts`. -/
def getChannelPendingMessage (messageId : Str)
    (store : List ChannelPendingMessageRow) : Option ChannelPendingMessageRow :=
  store.find? (fun r => r.message_id = messageId)

/-- `deleteChannelPendingMessage` from `repository.ts`. -/
def deleteChannelPendingMessage (messageId : Str)
    (store : List ChannelPendingMessageRow) : List ChannelPendingMessageRow :=
  store.filter (fun r => !(r.message_id = messageId))

/-- The row filter of `purgeExpiredChannelPendingMessages`:
`expires_at <= cutoff` plus the optional channel filter. -/
def purgeMatch (channel : Str) (cutoff : Int)
    (r : ChannelPendingMessageRow) : Bool :=
  r.expires_at ≤ cutoff && (channel.isEmpty || r.channel = channel)

/-- `purgeExpiredChannelPendingMessages` from `repository.ts`: count the
matching rows, delete them, return the count. -/
def purgeExpiredChannelPendingMessages (channel : Str) (olderThanMs now : Int)
    (store : List ChannelPendingMessageRow) :
    Nat × List ChannelPendingMessageRow :=
  let cutoff := now - max 0 olderThanMs
  ((store.filter (purgeMatch channel cutoff)).length,
   store.filter (fun r => !(purgeMatch channel cutoff r)))

/-- `DurablePendingMessage` from the pending-message module. -/
structure DurablePendingMessage where
  channel : Str
  sender : Str
  senderId : Str
  chatRef : Str
  replyRef : Str
deriving DecidableEq, Repr

/-- `readPendingMessage` from the pending-message module: a row of another
channel reads as `null`; an expired row is deleted and reads as `null`. -/
def readPendingMessage (channel messageId : Str) (now : Int)
    (store : List ChannelPendingMessageRow) :
    Option DurablePendingMessage × List ChannelPendingMessageRow :=
  match getChannelPendingMessage messageId store with
  | none => (none, store)
  | some row =>
    if !(row.channel = channel) then (none, store)
    else if row.expires_at ≤ now then
      (none, deleteChannelPendingMessage messageId store)
    else
      (some { channel := row.channel, sender := row.sender,
              senderId := row.sender_id,
              chatRef := if row.chat_ref.isEmpty then row.sender_id
                else row.chat_ref,
              replyRef := row.reply_ref }, store)

/-- `cleanupExpiredPendingMessages` from the pending-message module:
purge with `olderThanMs = 0`, increment the metric when rows were removed. -/
def cleanupExpiredPendingMessages (channel : Str) (now : Int)
    (store : List ChannelPendingMessageRow) (metrics : MetricsStore) :
    Nat × List ChannelPendingMessageRow × MetricsStore :=
  let purged := purgeExpiredChannelPendingMessages channel 0 now store
  let metrics' :=
    if 0 < purged.1 then
      (incrementMetric "channel_pending_expired_count".data purged.1
        [("channel".data, channel)] now metrics).2
    else metrics
  (purged.1, purged.2, metrics')

/-- C7: a pending row whose `expires_at` is in the past is not returned by
`readPendingMessage`, is purged by the next cleanup on its channel, and
cleanup is idempotent: a second cleanup at the same instant with no
intervening writes removes nothing and returns 0. -/
theorem pending_ttl_cleanup (store : List ChannelPendingMessageRow)
    (row : ChannelPendingMessageRow) (now : Int) (metrics m2 : MetricsStore)
    (hget : getChannelPendingMessage row.message_id store = some row)
    (hexp : row.expires_at < now) :
    (readPendingMessage row.channel row.message_id now store).1 = none
    ∧ row ∉ (cleanupExpiredPendingMessages row.channel now store metrics).2.1
    ∧ (cleanupExpiredPendingMessages row.channel now
        (cleanupExpiredPendingMessages row.channel now store metrics).2.1
        m2).1 = 0
    ∧ (cleanupExpiredPendingMessages row.channel now
        (cleanupExpiredPendingMessages row.channel now store metrics).2.1
        m2).2.1 =
      (cleanupExpiredPendingMessages row.channel now store metrics).2.1 := by
  have hmatch : purgeMatch row.channel (now - max 0 0) row = true := by
    simp [purgeMatch]
    omega
  have hfilter2 : ∀ (l : List ChannelPendingMessageRow),
      (l.filter (fun r => !(purgeMatch row.channel (now - max 0 0) r))).filter
        (purgeMatch row.channel (now - max 0 0)) = [] := by
    intro l
    rw [List.filter_filter]
    apply List.filter_eq_nil_iff.mpr
    intro a _
    cases purgeMatch row.channel (now - max 0 0) a <;> simp
  have hfilter3 : ∀ (l : List ChannelPendingMessageRow),
      (l.filter (fun r => !(purgeMatch row.channel (now - max 0 0) r))).filter
        (fun r => !(purgeMatch row.channel (now - max 0 0) r)) =
      l.filter (fun r => !(purgeMatch row.channel (now - max 0 0) r)) := by
    intro l
    rw [List.filter_filter]
    apply List.filter_congr
    intro a _
    cases purgeMatch row.channel (now - max 0 0) a <;> simp
  refine ⟨?_, ?_, ?_, ?_⟩
  · simp only [readPendingMessage, hget]
    rw [if_neg (by simp), if_pos (by omega)]
  · simp only [cleanupExpiredPendingMessages, purgeExpiredChannelPendingMessages]
    intro hmem
    have := (List.mem_filter.mp hmem).2
    rw [hmatch] at this
    simp at this
  · simp only [cleanupExpiredPendingMessages, purgeExpiredChannelPendingMessages]
    rw [hfilter2]
    rfl
  · simp only [cleanupExpiredPendingMessages, purgeExpiredChannelPendingMessages]
    rw [hfilter3]

/-- Concrete expired row for the C7 witness. -/
def expiredRow : ChannelPendingMessageRow :=
  { message_id := "m1".data, channel := "wa".data, sender := "s".data,
    sender_id := "u".data, chat_ref := "u@c.us".data, reply_ref := [],
    expires_at := 5, created_at := 1, updated_at := 1 }

theorem pending_ttl_cleanup_witness :
    (readPendingMessage expiredRow.channel expiredRow.message_id 10
        [expiredRow]).1 = none
    ∧ expiredRow ∉ (cleanupExpiredPendingMessages expiredRow.channel 10
        [expiredRow] ⟨[], []⟩).2.1
    ∧ (cleanupExpiredPendingMessages expiredRow.channel 10
        (cleanupExpiredPendingMessages expiredRow.channel 10 [expiredRow]
          ⟨[], []⟩).2.1 ⟨[], []⟩).1 = 0
    ∧ (cleanupExpiredPendingMessages expiredRow.channel 10
        (cleanupExpiredPendingMessages expiredRow.channel 10 [expiredRow]
          ⟨[], []⟩).2.1 ⟨[], []⟩).2.1 =
      (cleanupExpiredPendingMessages expiredRow.channel 10 [expiredRow]
        ⟨[], []⟩).2.1 :=
  pending_ttl_cleanup [expiredRow] expiredRow 10 ⟨[], []⟩ ⟨[], []⟩
    (by decide) (by decide)

/-! ## Long-response spill (`src/queue-processor.ts`, claim C8) -/

def LONG_RESPONSE_THRESHOLD : Nat := 4000

/-- `handleLongResponse` from `queue-processor.ts`.  The filesystem is the
list of `(path, content)` files written so far; `filesDir` is the `FILES_DIR`
of the configuration and `nowMs` the `Date.now()` used in the filename.  The
returned `message`/`files` pair is what `processMessage` puts verbatim into
the outgoing envelope's `message` and `files` fields. -/
def handleLongResponse (filesDir : Str) (nowMs : Nat) (response : Str)
    (existingFiles : List Str) (fs : List (Str × Str)) :
    (Str × List Str) × List (Str × Str) :=
  if response.length ≤ LONG_RESPONSE_THRESHOLD then
    ((response, existingFiles), fs)
  else
    let filename := "response_".data ++ Nat.toDigits 10 nowMs ++ ".md".data
    let filePath := filesDir ++ "/".data ++ filename
    let fs' := fs ++ [(filePath, response)]
    let preview := response.take LONG_RESPONSE_THRESHOLD
      ++ "\n\n_(Full response attached as file)_".data
    ((preview, existingFiles ++ [filePath]), fs')

/-- C8: for every response longer than 4000 characters, the outgoing
message is at most 4040 characters long (4000 plus the 36-character
attachment note) and the files list gains a newly written `.md` file holding
the full response text. -/
theorem long_response_spill (filesDir : Str) (nowMs : Nat) (response : Str)
    (existingFiles : List Str) (fs : List (Str × Str))
    (hlong : LONG_RESPONSE_THRESHOLD < response.length) :
    (handleLongResponse filesDir nowMs response existingFiles fs).1.1.length
        ≤ 4000 + 40
    ∧ ∃ p ∈ (handleLongResponse filesDir nowMs response existingFiles
        fs).1.2,
        ".md".data.isSuffixOf p = true
        ∧ (handleLongResponse filesDir nowMs response existingFiles fs).2 =
            fs ++ [(p, response)] := by
  have hnle : ¬(response.length ≤ LONG_RESPONSE_THRESHOLD) := by omega
  simp only [handleLongResponse, if_neg hnle]
  constructor
  · have h1 : (response.take LONG_RESPONSE_THRESHOLD).length =
        LONG_RESPONSE_THRESHOLD := by
      rw [List.length_take]
      omega
    rw [List.length_append, h1]
    norm_num [LONG_RESPONSE_THRESHOLD]
  · refine ⟨_, List.mem_append_right _ (List.mem_singleton.mpr rfl), ?_, rfl⟩
    apply List.isSuffixOf_iff_suffix.mpr
    exact ⟨filesDir ++ "/".data ++ ("response_".data ++ Nat.toDigits 10 nowMs),
      by simp⟩

/-- Witness for C8 at a concrete 4001-character response. -/
theorem long_response_spill_witness :
    (handleLongResponse "files".data 7 (List.replicate 4001 'a') []
        []).1.1.length ≤ 4000 + 40
    ∧ ∃ p ∈ (handleLongResponse "files".data 7 (List.replicate 4001 'a') []
        []).1.2,
        ".md".data.isSuffixOf p = true
        ∧ (handleLongResponse "files".data 7 (List.replicate 4001 'a') []
            []).2 = [] ++ [(p, List.replicate 4001 'a')] :=
  long_response_spill "files".data 7 (List.replicate 4001 'a') [] []
    (by rw [List.length_replicate]; norm_num [LONG_RESPONSE_THRESHOLD])

/-! ## The LLM verifier `verifyCandidate`
(`src/harness/runtime/orchestrator.ts`, claim C3) -/

/-- `VerifyContext` from `orchestrator.ts`. -/
structure VerifyContext where
  runId : Str
  objective : Str
  risk : RiskLevel
deriving DecidableEq, Repr

/-- What a successful `JSON.parse` produced, as far as `verifyCandidate`
inspects it: whether the value is a truthy object, plus the coerced
`outcome`, `findings` and `required_actions` fields (`none` models a field
that is not an array). -/
structure JsonValue where
  isObj : Bool
  outcome : Str
  findings : Option (List Str)
  requiredActions : Option (List Str)
deriving DecidableEq, Repr

/-- Split at the first occurrence of `needle`: `(text before, text after)`. -/
def splitAtSub (needle : Str) : Str → Option (Str × Str)
  | [] => if needle.isEmpty then some ([], []) else none
  | l@(c :: rest) =>
    if needle.isPrefixOf l then some ([], l.drop needle.length)
    else
      match splitAtSub needle rest with
      | some (pre, post) => some (c :: pre, post)
      | none => none

/-- The fenced-block match `/```(?:json)?\s*([\s\S]*?)\s*```/` of
`verifyCandidate`: the capture is the text between the first fence pair,
after an optional `json` tag, with the surrounding whitespace taken by the
greedy `\s*`s. -/
def fencedMatch (s : Str) : Option Str :=
  match splitAtSub "```".data s with
  | none => none
  | some (_, rest) =>
    let rest2 := if "json".data.isPrefixOf rest then rest.drop 4 else rest
    match splitAtSub "```".data rest2 with
    | none => none
    | some (content, _) => some (jsTrim content)

/-- The object match `/\{[\s\S]*\}/` of `verifyCandidate`: from the first
`{` to the last `}` (greedy), 123/125 are the braces. -/
def objMatch (s : Str) : Option Str :=
  match splitAtSub [Char.ofNat 123] s with
  | none => none
  | some (_, rest) =>
    let upto := (rest.reverse.dropWhile (fun c => !(c = Char.ofNat 125))).reverse
    if upto.isEmpty then none else some (Char.ofNat 123 :: upto)

/-- The parse cascade of `verifyCandidate`.  `JSON.parse` is external:
`parse` maps a text to the parsed value or to the exception message it
throws.  The first attempt's exception is swallowed by the inner `catch`;
an exception of the fenced or object-match reparse escapes to the outer
`catch` (`.error`); `.ok none` means `parsed` stayed `null`. -/
def parsedResult (parse : Str → Except Str JsonValue) (raw : Str) :
    Except Str (Option JsonValue) :=
  let trimmed := jsTrim raw
  match parse trimmed with
  | .ok v => .ok (some v)
  | .error _ =>
    match fencedMatch trimmed with
    | some inner =>
      match parse inner with
      | .ok v => .ok (some v)
      | .error m => .error m
    | none =>
      match objMatch trimmed with
      | some o =>
        match parse o with
        | .ok v => .ok (some v)
        | .error m => .error m
      | none => .ok none

/-- One URL match of `/(https?:\/\/[^\s)]+)/g` starting at the current
position; on a match the global scan resumes after it.  As in
`tokenizeAux`, each step consumes at least one character, so fuel equal to
the input length suffices. -/
def extractUrlsAux : Nat → Str → List Str
  | _, [] => []
  | 0, _ => []
  | fuel + 1, l@(_ :: rest) =>
    let scheme : Option Nat :=
      if "https://".data.isPrefixOf l then some 8
      else if "http://".data.isPrefixOf l then some 7
      else none
    match scheme with
    | some n =>
      let tail := l.drop n
      let run := tail.takeWhile (fun x => !(isJsWs x) && !(x = ')'))
      if run.isEmpty then extractUrlsAux fuel rest
      else (l.take n ++ run) :: extractUrlsAux fuel (tail.drop run.length)
    | none => extractUrlsAux fuel rest

/-- The `\s*([^\]]+)\]` continuation of the evidence-tag regex after the
colon: greedy whitespace, backtracking one character when `[^\]]+` would be
empty.  Returns the capture and the rest of the input after `]`. -/
def tagCapture (v : Str) : Option (Str × Str) :=
  let k := v.takeWhile isJsWs
  let w := v.dropWhile isJsWs
  let cap := w.takeWhile (fun x => !(x = ']'))
  if !cap.isEmpty then
    match w.drop cap.length with
    | ']' :: rem => some (cap, rem)
    | _ => none
  else
    match w, k.reverse with
    | ']' :: rem, kl :: _ => some ([kl], rem)
    | _, _ => none

/-- One match of `/\[(?:evidence|source):\s*([^\]]+)\]/gi`; the scan resumes
after the closing `]` of a match, or one character further on failure.  As
in `tokenizeAux`, fuel equal to the input length suffices. -/
def extractTagsAux : Nat → Str → List Str
  | _, [] => []
  | 0, _ => []
  | fuel + 1, c :: rest =>
    (if c = '[' then
      let afterKw : Option Str :=
        if startsWithCI "evidence".data rest then some (rest.drop 8)
        else if startsWithCI "source".data rest then some (rest.drop 6)
        else none
      match afterKw with
      | some u =>
        match u with
        | ':' :: v => tagCapture v
        | _ => none
      | none => none
    else none).elim (extractTagsAux fuel rest)
      (fun capRem => capRem.1 :: extractTagsAux fuel capRem.2)

/-- JS `Set` insertion order: keep the first occurrence of each element. -/
def dedupList (l : List Str) : List Str :=
  l.foldl (fun acc s => if acc.contains s then acc else acc ++ [s]) []

/-- `extractEvidenceRefs` from `orchestrator.ts`: the URL matches, then the
trimmed evidence/source tags, deduplicated in insertion order. -/
def extractEvidenceRefs (text : Str) : List Str :=
  dedupList (extractUrlsAux text.length text
    ++ (extractTagsAux text.length text).map jsTrim)

/-- Match of `sorry,?\s+i encountered an error` (case-insensitive) at the
start of the input. -/
def errorPlaceholderAt (l : Str) : Bool :=
  startsWithCI "sorry".data l &&
    (let after := l.drop 5
     let b := if after.head? = some ',' then after.drop 1 else after
     let ws := b.takeWhile isJsWs
     let c := b.dropWhile isJsWs
     !ws.isEmpty && startsWithCI "i encountered an error".data c)

/-- JS `/sorry,?\s+i encountered an error/i.test(s)`. -/
def hasErrorPlaceholder : Str → Bool
  | [] => false
  | l@(_ :: rest) => errorPlaceholderAt l || hasErrorPlaceholder rest

/-- The text of a risk level (`${ctx.risk}` in the prompt). -/
def RiskLevel.asText : RiskLevel → Str
  | .low => "low".data
  | .medium => "medium".data
  | .high => "high".data
  | .critical => "critical".data

/-- The verifier prompt of `verifyCandidate`, joined with newlines
(123/125 render the braces of the requested JSON shape). -/
def verifierPrompt (ctx : VerifyContext) (candidate : Str) : Str :=
  List.intercalate ['\n']
    [("You are a response quality verifier for an AI assistant. "
        ++ "Evaluate whether the agent response adequately addresses "
        ++ "the user request.").data,
     [],
     "<request risk=\"".data ++ ctx.risk.asText ++ "\">".data,
     ctx.objective,
     "</request>".data,
     [],
     "<response>".data,
     candidate,
     "</response>".data,
     [],
     "Output ONLY a JSON object with these fields, no other text:".data,
     [Char.ofNat 123],
     "  \"outcome\": \"pass\" | \"minor_fix\" | \"critical_fail\" | \"abstain\",".data,
     "  \"findings\": [\"list of issues, empty if pass\"],".data,
     "  \"required_actions\": [\"fixes needed, empty if pass\"]".data,
     [Char.ofNat 125],
     [],
     "Guidelines:".data,
     ("- \"pass\": Response is relevant, coherent, and addresses the "
        ++ "request. Conversational and casual messages should pass easily.").data,
     ("- \"minor_fix\": Response is partially correct but has notable "
        ++ "gaps or inaccuracies.").data,
     ("- \"critical_fail\": Response is completely off-topic, "
        ++ "nonsensical, or could cause harm.").data,
     "- \"abstain\": Cannot evaluate (too specialized or ambiguous).".data,
     "- Be pragmatic. A helpful on-topic response should pass even if imperfect.".data]

/-- `outcome` coercion of `verifyCandidate`: a valid outcome string is kept,
anything else becomes `pass`. -/
def outcomeOfText (s : Str) : VerifierOutcome :=
  if s = "pass".data then .pass
  else if s = "minor_fix".data then .minor_fix
  else if s = "critical_fail".data then .critical_fail
  else if s = "abstain".data then .abstain
  else .pass

/-- `verifyCandidate` from `orchestrator.ts`.  The one-shot LLM call is
external: `llm` maps the built prompt to the raw verifier output or to the
exception it raises; `parse` is the `JSON.parse` oracle of
`parsedResult`. -/
def verifyCandidate (parse : Str → Except Str JsonValue)
    (llm : Str → Except Str Str) (ctx : VerifyContext)
    (candidate : Str) : VerificationVerdict :=
  let evidenceRefs := extractEvidenceRefs candidate
  if candidate.isEmpty || (jsTrim candidate).length < 8 then
    { runId := ctx.runId, verifier := "llm".data, outcome := .critical_fail,
      findings := ["Response is empty or too short.".data],
      requiredActions := ["Provide a complete response.".data],
      evidenceRefs := evidenceRefs }
  else if hasErrorPlaceholder candidate then
    { runId := ctx.runId, verifier := "llm".data, outcome := .critical_fail,
      findings := ["Agent returned an execution error placeholder.".data],
      requiredActions := ["Regenerate a concrete answer.".data],
      evidenceRefs := evidenceRefs }
  else
    match llm (verifierPrompt ctx candidate) with
    | .error e =>
      { runId := ctx.runId, verifier := "llm".data, outcome := .pass,
        findings := ["Verifier error: ".data ++ e
          ++ "; defaulting to pass.".data],
        requiredActions := [], evidenceRefs := evidenceRefs }
    | .ok raw =>
      match parsedResult parse raw with
      | .error m =>
        { runId := ctx.runId, verifier := "llm".data, outcome := .pass,
          findings := ["Verifier error: ".data ++ m
            ++ "; defaulting to pass.".data],
          requiredActions := [], evidenceRefs := evidenceRefs }
      | .ok none =>
        { runId := ctx.runId, verifier := "llm".data, outcome := .pass,
          findings :=
            ["Verifier output could not be parsed; defaulting to pass.".data],
          requiredActions := [], evidenceRefs := evidenceRefs }
      | .ok (some v) =>
        if !v.isObj then
          { runId := ctx.runId, verifier := "llm".data, outcome := .pass,
            findings :=
              ["Verifier output could not be parsed; defaulting to pass.".data],
            requiredActions := [], evidenceRefs := evidenceRefs }
        else
          { runId := ctx.runId, verifier := "llm".data,
            outcome := outcomeOfText v.outcome,
            findings := v.findings.getD [],
            requiredActions := v.requiredActions.getD [],
            evidenceRefs := evidenceRefs }

/-- "The LLM verifier output cannot be parsed as a JSON object": every parse
attempt of the cascade fails or yields a non-object. -/
def verifierUnparsable (parse : Str → Except Str JsonValue)
    (raw : Str) : Bool :=
  match parsedResult parse raw with
  | .error _ => true
  | .ok none => true
  | .ok (some v) => !v.isObj

/-- C3: for a candidate that reaches the LLM verifier (neither empty/tiny
nor the error placeholder), if the verifier call raises an exception or its
output cannot be parsed as a JSON object, `verifyCandidate` returns a
verdict with outcome `pass` (fail-open). -/
theorem verifier_fail_open (parse : Str → Except Str JsonValue)
    (llm : Str → Except Str Str) (ctx : VerifyContext) (candidate : Str)
    (hne : candidate.isEmpty = false)
    (hbig : ¬((jsTrim candidate).length < 8))
    (hplc : hasErrorPlaceholder candidate = false)
    (hfail : (∃ e, llm (verifierPrompt ctx candidate) = .error e)
      ∨ (∃ raw, llm (verifierPrompt ctx candidate) = .ok raw
          ∧ verifierUnparsable parse raw = true)) :
    (verifyCandidate parse llm ctx candidate).outcome = .pass := by
  have hguard : (candidate.isEmpty || decide ((jsTrim candidate).length < 8))
      = false := by
    rw [hne]
    simpa using hbig
  rcases hfail with ⟨e, he⟩ | ⟨raw, hraw, hunp⟩
  · simp [verifyCandidate, hguard, hplc, he]
  · simp only [verifyCandidate, hguard, hplc, hraw]
    unfold verifierUnparsable at hunp
    cases hp : parsedResult parse raw with
    | error m => simp [hp]
    | ok v =>
      cases v with
      | none => simp [hp]
      | some jv =>
        rw [hp] at hunp
        simp only [hp]
        simp at hunp
        simp [hunp]

/-- Witness for C3: a JSON.parse oracle that always throws and an LLM
output with no fence and no braces, on a long enough candidate. -/
theorem verifier_fail_open_witness :
    (verifyCandidate (fun _ => Except.error "SyntaxError".data)
      (fun _ => Except.ok "not json at all".data)
      ⟨"run".data, "obj".data, .low⟩
      "a sufficiently long candidate answer".data).outcome =
      VerifierOutcome.pass :=
  verifier_fail_open (fun _ => Except.error "SyntaxError".data)
    (fun _ => Except.ok "not json at all".data)
    ⟨"run".data, "obj".data, .low⟩
    "a sufficiently long candidate answer".data
    (by decide) (by decide) (by decide)
    (Or.inr ⟨"not json at all".data, rfl, by decide⟩)

end TinyAGI
